import Mathlib

/-!
Shallow embedding of the epsilon-greedy tabular Q-learning agent in
`TD/qlearning.py` (`class QLearningAgent`), together with proofs of its
specified properties.

Modelling choices:
* Python floats are modelled as rationals (`ℚ`).
* The nested `defaultdict(lambda: defaultdict(lambda: 0))` value store is
  modelled as an association list of association lists, `Store S A`; reading
  a missing key inserts the default entry at the end, exactly as the Python
  `defaultdict.__getitem__` method does (insertion order preserved).
* Mutation of `self._qValues` is modelled by explicit state passing: every
  operation returns its result together with the store after the call.
* The two sources of randomness in `getAction` — the uniform draw
  `np.random.random()` and the index chosen by `random.choice` — are passed
  in as explicit parameters `u : ℚ` and `randIdx : Nat` (taken modulo the
  number of legal actions, as every index is an equally likely outcome).
* `np.argmax` returns the index of the first occurrence of the maximum;
  `argmaxIdx` below implements exactly that.
-/

namespace QLearning

/-- Association-list lookup, mirroring Python dict `__getitem__` key search. -/
def alookup {K V : Type} [DecidableEq K] (k : K) : List (K × V) → Option V
  | [] => none
  | p :: rest => if k = p.1 then some p.2 else alookup k rest

/-- Association-list write: overwrite an existing key in place, or append the
new entry at the end (Python dicts preserve insertion order). -/
def aset {K V : Type} [DecidableEq K] (k : K) (v : V) : List (K × V) → List (K × V)
  | [] => [(k, v)]
  | p :: rest => if k = p.1 then (k, v) :: rest else p :: aset k v rest

/-- The value store `self._qValues`: a finite map from states to finite maps
from actions to Q-values. -/
abbrev Store (S A : Type) := List (S × List (A × ℚ))

/-- The fields of the agent other than `_qValues`: the three hyperparameters and
the injected legal-actions callback (`self.getLegalActions`). -/
structure Agent (S A : Type) where
  alpha : ℚ
  epsilon : ℚ
  discount : ℚ
  getLegalActions : S → List A

variable {S A : Type} [DecidableEq S] [DecidableEq A]

/-- Mirrors `QLearningAgent.__init__`: records the hyperparameters and the
oracle, and pairs them with the initially empty value store. -/
def mkAgent (alpha epsilon discount : ℚ) (getLegalActions : S → List A) :
    Agent S A × Store S A :=
  (⟨alpha, epsilon, discount, getLegalActions⟩, [])

/-- Models the field assignment `agent.alpha = v`. -/
def setAlpha (ag : Agent S A) (v : ℚ) : Agent S A :=
  ⟨v, ag.epsilon, ag.discount, ag.getLegalActions⟩

/-- Models the field assignment `agent.epsilon = v`. -/
def setEpsilon (ag : Agent S A) (v : ℚ) : Agent S A :=
  ⟨ag.alpha, v, ag.discount, ag.getLegalActions⟩

/-- Models the field assignment `agent.discount = v`. -/
def setDiscount (ag : Agent S A) (v : ℚ) : Agent S A :=
  ⟨ag.alpha, ag.epsilon, v, ag.getLegalActions⟩

/-- Pure observation of the store: the Q-value that `(state, action)` would
read, with the `defaultdict` default 0 for missing keys. Used to state what
is observable without modelling the vivification side effect. -/
def readQ (t : Store S A) (s : S) (a : A) : ℚ :=
  match alookup s t with
  | none => 0
  | some inner =>
    match alookup a inner with
    | none => 0
    | some v => v

/-- Mirrors `getQValue`: `return self._qValues[state][action]`. On a
`defaultdict`, each missing key is inserted with its default on read, so the
call returns the value together with the possibly-grown store. -/
def getQValue (t : Store S A) (s : S) (a : A) : ℚ × Store S A :=
  match alookup s t with
  | none => (0, aset s [(a, 0)] t)
  | some inner =>
    match alookup a inner with
    | none => (0, aset s (aset a 0 inner) t)
    | some v => (v, t)

/-- Mirrors `setQValue`: `self._qValues[state][action] = value` (the outer
access vivifies an empty inner dict when the state is missing). -/
def setQValue (t : Store S A) (s : S) (a : A) (v : ℚ) : Store S A :=
  match alookup s t with
  | none => aset s [(a, v)] t
  | some inner => aset s (aset a v inner) t

/-- The Python `max` on a non-empty list, left fold of binary `max` over the
tail starting from the head (`listMax [] = 0` is never used by the agent:
`getValue` checks emptiness first). -/
def listMax : List ℚ → ℚ
  | [] => 0
  | x :: xs => xs.foldl max x

/-- Mirrors `np.argmax`: the index of the first occurrence of the maximum
(`argmaxIdx [] = 0` is never used: `getPolicy` checks emptiness first). -/
def argmaxIdx : List ℚ → Nat
  | [] => 0
  | [_] => 0
  | x :: y :: ys => if listMax (y :: ys) ≤ x then 0 else argmaxIdx (y :: ys) + 1

/-- The list comprehension `[self.getQValue(state, a) for a in actions]`,
evaluated left to right with the store threaded through the reads. -/
def qValuesList (t : Store S A) (s : S) : List A → List ℚ × Store S A
  | [] => ([], t)
  | a :: rest =>
    let gq := getQValue t s a
    let r := qValuesList gq.2 s rest
    (gq.1 :: r.1, r.2)

/-- Mirrors `getValue`: 0.0 when there are no legal actions, otherwise
`max([self.getQValue(state, a) for a in possibleActions])`. -/
def getValue (ag : Agent S A) (t : Store S A) (s : S) : ℚ × Store S A :=
  let possibleActions := ag.getLegalActions s
  if possibleActions.length = 0 then (0, t)
  else
    let r := qValuesList t s possibleActions
    (listMax r.1, r.2)

/-- Mirrors `getPolicy`: `None` when there are no legal actions, otherwise
`possibleActions[np.argmax([self.getQValue(state, a) for a in ...])]`. -/
def getPolicy (ag : Agent S A) (t : Store S A) (s : S) : Option A × Store S A :=
  let possibleActions := ag.getLegalActions s
  if possibleActions.length = 0 then (none, t)
  else
    let r := qValuesList t s possibleActions
    (possibleActions[argmaxIdx r.1]?, r.2)

/-- Mirrors `getAction`: `None` when there are no legal actions; otherwise if
the uniform draw `u` satisfies `u <= epsilon`, a `random.choice` from the
legal actions (outcome index `randIdx` modulo the length), else
`self.getPolicy(state)`. -/
def getAction (ag : Agent S A) (t : Store S A) (s : S) (u : ℚ) (randIdx : Nat) :
    Option A × Store S A :=
  let possibleActions := ag.getLegalActions s
  if possibleActions.length = 0 then (none, t)
  else if u ≤ ag.epsilon then
    (possibleActions[randIdx % possibleActions.length]?, t)
  else getPolicy ag t s

/-- Mirrors `update`: `reference_qvalue = reward + gamma * self.getValue(nextState)`,
`updated_qvalue = (1 - learning_rate) * self.getQValue(state, action)
+ learning_rate * reference_qvalue`, then `setQValue`. The `getQValue` read
happens on the store after the `getValue` call, as in the source. -/
def update (ag : Agent S A) (t : Store S A) (s : S) (a : A) (ns : S) (r : ℚ) :
    Store S A :=
  let gamma := ag.discount
  let learning_rate := ag.alpha
  let gv := getValue ag t ns
  let reference_qvalue := r + gamma * gv.1
  let gq := getQValue gv.2 s a
  let updated_qvalue := (1 - learning_rate) * gq.1 + learning_rate * reference_qvalue
  setQValue gq.2 s a updated_qvalue

/-- One public operation of the agent, for reasoning about call sequences. -/
inductive Op (S A : Type) where
  | getQ (s : S) (a : A)
  | setQ (s : S) (a : A) (v : ℚ)
  | getV (s : S)
  | getP (s : S)
  | getA (s : S) (u : ℚ) (i : Nat)
  | upd (s : S) (a : A) (ns : S) (r : ℚ)

/-- The store after performing one operation (results discarded). -/
def applyOp (ag : Agent S A) (t : Store S A) : Op S A → Store S A
  | .getQ s a => (getQValue t s a).2
  | .setQ s a v => setQValue t s a v
  | .getV s => (getValue ag t s).2
  | .getP s => (getPolicy ag t s).2
  | .getA s u i => (getAction ag t s u i).2
  | .upd s a ns r => update ag t s a ns r

/-- The store after performing a sequence of operations in order. -/
def runOps (ag : Agent S A) : List (Op S A) → Store S A → Store S A
  | [], t => t
  | op :: rest, t => runOps ag rest (applyOp ag t op)

/-- Whether an operation is one of the read operations (`getQValue`,
`getValue`, `getPolicy`, `getAction`), as opposed to `setQValue`/`update`. -/
def readOnly : Op S A → Bool
  | .setQ _ _ _ => false
  | .upd _ _ _ _ => false
  | _ => true

/-- Whether an operation writes the pair `(s, a)`: a `setQValue` on it or an
`update` on it. -/
def writesTo (s : S) (a : A) : Op S A → Bool
  | .setQ s1 a1 _ => decide (s1 = s) && decide (a1 = a)
  | .upd s1 a1 _ _ => decide (s1 = s) && decide (a1 = a)
  | _ => false

/-- Concrete oracle for the `update` worked example of the spec: `nextState`
1 has the single legal action 20, every other state has none. -/
def oracleC1 : ℕ → List ℕ := fun s => if s = 1 then [20] else []

/-- Agent for the worked example: `alpha = 0.5`, `discount = 0.9`. -/
def agC1 : Agent ℕ ℕ := ⟨1/2, 1/4, 9/10, oracleC1⟩

/-- Store for the worked example: `Q(1, 20) = 10`, nothing else set. -/
def tC1 : Store ℕ ℕ := setQValue [] 1 20 10

/-- Concrete oracle for the boundary case of `getAction`: state 0 has the two
legal actions 0 and 1. -/
def oracleC4 : ℕ → List ℕ := fun s => if s = 0 then [0, 1] else []

/-- Agent with `epsilon = 0`, for the boundary case of `getAction`. -/
def agC4 : Agent ℕ ℕ := ⟨1/2, 0, 9/10, oracleC4⟩

/-- Store in which action 1 is strictly better than action 0 in state 0. -/
def tC4 : Store ℕ ℕ := setQValue [] 0 1 1

/-- Concrete oracle for witnesses: state 0 has legal actions 10 and 11,
every other state has none. -/
def oracleW : ℕ → List ℕ := fun s => if s = 0 then [10, 11] else []

/-- Concrete agent used by witnesses. -/
def agW : Agent ℕ ℕ := ⟨1/2, 1/4, 9/10, oracleW⟩

/-- Concrete store used by witnesses: `Q(0, 11) = 3`, nothing else set. -/
def tW : Store ℕ ℕ := setQValue [] 0 11 3

/-! ### Lemmas about the association-list primitives -/

theorem alookup_aset_self {K V : Type} [DecidableEq K] (k : K) (v : V) (l : List (K × V)) :
    alookup k (aset k v l) = some v := by
  induction l with
  | nil => simp [aset, alookup]
  | cons p rest ih =>
    by_cases h : k = p.1
    · simp [aset, alookup, h]
    · simp [aset, alookup, h, ih]

theorem alookup_aset_ne {K V : Type} [DecidableEq K] {k k1 : K} (h : k1 ≠ k) (v : V)
    (l : List (K × V)) : alookup k1 (aset k v l) = alookup k1 l := by
  induction l with
  | nil => simp [aset, alookup, h]
  | cons p rest ih =>
    by_cases hp : k = p.1
    · subst hp
      simp [aset, alookup, h]
    · by_cases hp1 : k1 = p.1
      · simp [aset, alookup, hp, hp1]
      · simp [aset, alookup, hp, hp1, ih]

/-! ### Observational lemmas about the store operations -/

theorem getQValue_fst (t : Store S A) (s : S) (a : A) :
    (getQValue t s a).1 = readQ t s a := by
  cases hs : alookup s t with
  | none => simp [getQValue, readQ, hs]
  | some inner =>
    cases ha : alookup a inner with
    | none => simp [getQValue, readQ, hs, ha]
    | some v => simp [getQValue, readQ, hs, ha]

theorem readQ_getQValue (t : Store S A) (s : S) (a : A) (s1 : S) (a1 : A) :
    readQ (getQValue t s a).2 s1 a1 = readQ t s1 a1 := by
  cases hs : alookup s t with
  | none =>
    by_cases hs1 : s1 = s
    · subst hs1
      by_cases ha1 : a1 = a
      · subst ha1
        simp [getQValue, readQ, hs, alookup_aset_self, alookup]
      · simp [getQValue, readQ, hs, alookup_aset_self, alookup, ha1]
    · simp [getQValue, readQ, hs, alookup_aset_ne hs1]
  | some inner =>
    cases ha : alookup a inner with
    | none =>
      by_cases hs1 : s1 = s
      · subst hs1
        by_cases ha1 : a1 = a
        · subst ha1
          simp [getQValue, readQ, hs, ha, alookup_aset_self]
        · simp [getQValue, readQ, hs, ha, alookup_aset_self, alookup_aset_ne ha1]
      · simp [getQValue, readQ, hs, ha, alookup_aset_ne hs1]
    | some v => simp [getQValue, readQ, hs, ha]

theorem readQ_setQValue_self (t : Store S A) (s : S) (a : A) (v : ℚ) :
    readQ (setQValue t s a v) s a = v := by
  cases hs : alookup s t with
  | none => simp [setQValue, readQ, hs, alookup_aset_self, alookup]
  | some inner => simp [setQValue, readQ, hs, alookup_aset_self]

theorem readQ_setQValue_ne (t : Store S A) {s : S} {a : A} (v : ℚ) {s1 : S} {a1 : A}
    (h : s1 ≠ s ∨ a1 ≠ a) :
    readQ (setQValue t s a v) s1 a1 = readQ t s1 a1 := by
  by_cases hs1 : s1 = s
  · subst hs1
    have ha1 : a1 ≠ a := h.resolve_left (by simp)
    cases hs : alookup s1 t with
    | none => simp [setQValue, readQ, hs, alookup_aset_self, alookup_aset_ne ha1, alookup, ha1]
    | some inner => simp [setQValue, readQ, hs, alookup_aset_self, alookup_aset_ne ha1]
  · cases hs : alookup s t with
    | none => simp [setQValue, readQ, hs, alookup_aset_ne hs1]
    | some inner => simp [setQValue, readQ, hs, alookup_aset_ne hs1]

/-! ### Lemmas about `listMax` and `argmaxIdx` -/

theorem foldl_max_cons (xs : List ℚ) : ∀ x y : ℚ, xs.foldl max (max x y) = max x (xs.foldl max y) := by
  induction xs with
  | nil => intro x y; rfl
  | cons z zs ih =>
    intro x y
    simp only [List.foldl_cons]
    rw [max_assoc, ih]

theorem listMax_cons (x y : ℚ) (ys : List ℚ) :
    listMax (x :: y :: ys) = max x (listMax (y :: ys)) := by
  simp only [listMax, List.foldl_cons]
  exact foldl_max_cons ys x y

theorem le_listMax {l : List ℚ} {a : ℚ} (h : a ∈ l) : a ≤ listMax l := by
  induction l with
  | nil => cases h
  | cons x xs ih =>
    cases xs with
    | nil =>
      rw [List.mem_singleton] at h
      subst h
      simp [listMax]
    | cons y ys =>
      rw [listMax_cons]
      rcases List.mem_cons.mp h with rfl | hmem
      · exact le_max_left _ _
      · exact le_trans (ih hmem) (le_max_right _ _)

theorem listMax_mem : ∀ {l : List ℚ}, l ≠ [] → listMax l ∈ l := by
  intro l
  induction l with
  | nil => intro h; exact absurd rfl h
  | cons x xs ih =>
    intro _
    cases xs with
    | nil => simp [listMax]
    | cons y ys =>
      rw [listMax_cons]
      rcases le_total x (listMax (y :: ys)) with hle | hle
      · rw [max_eq_right hle]
        exact List.mem_cons_of_mem _ (ih (by simp))
      · rw [max_eq_left hle]
        exact List.mem_cons_self _ _

theorem argmaxIdx_lt_length : ∀ {l : List ℚ}, l ≠ [] → argmaxIdx l < l.length := by
  intro l
  induction l with
  | nil => intro h; exact absurd rfl h
  | cons x xs ih =>
    intro _
    cases xs with
    | nil => simp [argmaxIdx]
    | cons y ys =>
      by_cases hle : listMax (y :: ys) ≤ x
      · simp [argmaxIdx, hle]
      · simp only [argmaxIdx, if_neg hle, List.length_cons]
        exact Nat.succ_lt_succ (ih (by simp))

theorem argmaxIdx_getElem? : ∀ {l : List ℚ}, l ≠ [] → l[argmaxIdx l]? = some (listMax l) := by
  intro l
  induction l with
  | nil => intro h; exact absurd rfl h
  | cons x xs ih =>
    intro _
    cases xs with
    | nil => simp [argmaxIdx, listMax]
    | cons y ys =>
      by_cases hle : listMax (y :: ys) ≤ x
      · rw [listMax_cons, max_eq_left hle]
        simp [argmaxIdx, hle]
      · have hx : x < listMax (y :: ys) := not_le.mp hle
        rw [listMax_cons, max_eq_right hx.le]
        simp only [argmaxIdx, if_neg hle, List.getElem?_cons_succ]
        exact ih (by simp)

theorem argmaxIdx_le : ∀ {l : List ℚ} {j : Nat}, l[j]? = some (listMax l) → argmaxIdx l ≤ j := by
  intro l
  induction l with
  | nil => intro j h; simp at h
  | cons x xs ih =>
    intro j h
    cases xs with
    | nil => simp [argmaxIdx]
    | cons y ys =>
      by_cases hle : listMax (y :: ys) ≤ x
      · simp [argmaxIdx, hle]
      · have hx : x < listMax (y :: ys) := not_le.mp hle
        rw [listMax_cons, max_eq_right hx.le] at h
        cases j with
        | zero =>
          rw [List.getElem?_cons_zero, Option.some_inj] at h
          exact absurd h (ne_of_lt hx)
        | succ j =>
          rw [List.getElem?_cons_succ] at h
          simp only [argmaxIdx, if_neg hle]
          exact Nat.succ_le_succ (ih h)

/-! ### Observational lemmas about the derived operations -/

theorem readQ_qValuesList (s : S) (as : List A) :
    ∀ (t : Store S A) (s1 : S) (a1 : A), readQ (qValuesList t s as).2 s1 a1 = readQ t s1 a1 := by
  induction as with
  | nil => intro t s1 a1; rfl
  | cons a rest ih =>
    intro t s1 a1
    simp only [qValuesList]
    rw [ih, readQ_getQValue]

theorem qValuesList_fst (s : S) (as : List A) :
    ∀ t : Store S A, (qValuesList t s as).1 = as.map (readQ t s) := by
  induction as with
  | nil => intro t; rfl
  | cons a rest ih =>
    intro t
    have hpt : readQ (getQValue t s a).2 s = readQ t s :=
      funext (readQ_getQValue t s a s)
    simp only [qValuesList, List.map_cons, getQValue_fst]
    rw [ih, hpt]

theorem readQ_getValue (ag : Agent S A) (t : Store S A) (s : S) (s1 : S) (a1 : A) :
    readQ (getValue ag t s).2 s1 a1 = readQ t s1 a1 := by
  by_cases h : (ag.getLegalActions s).length = 0
  · simp [getValue, h]
  · simp [getValue, h, readQ_qValuesList]

theorem getValue_fst (ag : Agent S A) (t : Store S A) (s : S)
    (h : ag.getLegalActions s ≠ []) :
    (getValue ag t s).1 = listMax ((ag.getLegalActions s).map (readQ t s)) := by
  have hlen : ¬ (ag.getLegalActions s).length = 0 := by
    simpa [List.length_eq_zero] using h
  simp [getValue, hlen, qValuesList_fst]

theorem getValue_fst_empty (ag : Agent S A) (t : Store S A) (s : S)
    (h : ag.getLegalActions s = []) : (getValue ag t s).1 = 0 := by
  simp [getValue, h]

theorem readQ_getPolicy (ag : Agent S A) (t : Store S A) (s : S) (s1 : S) (a1 : A) :
    readQ (getPolicy ag t s).2 s1 a1 = readQ t s1 a1 := by
  by_cases h : (ag.getLegalActions s).length = 0
  · simp [getPolicy, h]
  · simp [getPolicy, h, readQ_qValuesList]

theorem getPolicy_fst (ag : Agent S A) (t : Store S A) (s : S)
    (h : ag.getLegalActions s ≠ []) :
    (getPolicy ag t s).1
      = (ag.getLegalActions s)[argmaxIdx ((ag.getLegalActions s).map (readQ t s))]? := by
  have hlen : ¬ (ag.getLegalActions s).length = 0 := by
    simpa [List.length_eq_zero] using h
  simp [getPolicy, hlen, qValuesList_fst]

theorem getPolicy_fst_empty (ag : Agent S A) (t : Store S A) (s : S)
    (h : ag.getLegalActions s = []) : (getPolicy ag t s).1 = none := by
  simp [getPolicy, h]

theorem readQ_getAction (ag : Agent S A) (t : Store S A) (s : S) (u : ℚ) (i : Nat)
    (s1 : S) (a1 : A) : readQ (getAction ag t s u i).2 s1 a1 = readQ t s1 a1 := by
  by_cases h : (ag.getLegalActions s).length = 0
  · simp [getAction, h]
  · by_cases hu : u ≤ ag.epsilon
    · simp [getAction, h, hu]
    · simp [getAction, h, hu, readQ_getPolicy]

theorem readQ_update_self (ag : Agent S A) (t : Store S A) (s : S) (a : A) (ns : S) (r : ℚ) :
    readQ (update ag t s a ns r) s a
      = (1 - ag.alpha) * (getQValue t s a).1
        + ag.alpha * (r + ag.discount * (getValue ag t ns).1) := by
  have hq : (getQValue (getValue ag t ns).2 s a).1 = (getQValue t s a).1 := by
    rw [getQValue_fst, getQValue_fst, readQ_getValue]
  simp only [update]
  rw [readQ_setQValue_self, hq]

theorem readQ_update_ne (ag : Agent S A) (t : Store S A) {s : S} {a : A} (ns : S) (r : ℚ)
    {s1 : S} {a1 : A} (h : s1 ≠ s ∨ a1 ≠ a) :
    readQ (update ag t s a ns r) s1 a1 = readQ t s1 a1 := by
  simp only [update]
  rw [readQ_setQValue_ne _ _ h, readQ_getQValue, readQ_getValue]

/-! ### Lemmas about operation sequences -/

theorem readQ_applyOp (ag : Agent S A) (t : Store S A) {s : S} {a : A} :
    ∀ {op : Op S A}, writesTo s a op = false →
      readQ (applyOp ag t op) s a = readQ t s a := by
  intro op h
  cases op with
  | getQ s1 a1 => exact readQ_getQValue t s1 a1 s a
  | setQ s1 a1 v =>
    have hne : s ≠ s1 ∨ a ≠ a1 := by
      rcases eq_or_ne s s1 with rfl | h1
      · rcases eq_or_ne a a1 with rfl | h2
        · simp [writesTo] at h
        · exact Or.inr h2
      · exact Or.inl h1
    exact readQ_setQValue_ne t v hne
  | getV s1 => exact readQ_getValue ag t s1 s a
  | getP s1 => exact readQ_getPolicy ag t s1 s a
  | getA s1 u i => exact readQ_getAction ag t s1 u i s a
  | upd s1 a1 ns r =>
    have hne : s ≠ s1 ∨ a ≠ a1 := by
      rcases eq_or_ne s s1 with rfl | h1
      · rcases eq_or_ne a a1 with rfl | h2
        · simp [writesTo] at h
        · exact Or.inr h2
      · exact Or.inl h1
    exact readQ_update_ne ag t ns r hne

theorem readQ_runOps (ag : Agent S A) {s : S} {a : A} :
    ∀ (ops : List (Op S A)) (t : Store S A),
      (∀ op ∈ ops, writesTo s a op = false) →
      readQ (runOps ag ops t) s a = readQ t s a := by
  intro ops
  induction ops with
  | nil => intro t _; rfl
  | cons op rest ih =>
    intro t h
    simp only [runOps]
    rw [ih _ (fun o ho => h o (List.mem_cons_of_mem _ ho)),
      readQ_applyOp ag t (h op (List.mem_cons_self _ _))]

theorem writesTo_eq_false_of_readOnly {op : Op S A} (h : readOnly op = true) (s : S) (a : A) :
    writesTo s a op = false := by
  cases op <;> simp_all [readOnly, writesTo]

/-! ### The claims -/

/-- C1: `update(state, action, nextState, reward)` stores at `(state, action)`
exactly `(1 - alpha) * getQValue(state, action) + alpha * (reward + discount *
getValue(nextState))`, with `getQValue` and `getValue` evaluated on the store
before the write; in particular, with `alpha = 0.5`, `discount = 0.9`, prior
`Q(state, action) = 0`, `nextState` having the single legal action 20 with
`Q(nextState, 20) = 10`, and reward 5, `getQValue` afterwards returns 7. -/
theorem claim_C1_update_formula :
    (∀ (S A : Type) (_idS : DecidableEq S) (_idA : DecidableEq A)
      (ag : Agent S A) (t : Store S A) (s : S) (a : A) (ns : S) (r : ℚ),
      readQ (update ag t s a ns r) s a
        = (1 - ag.alpha) * (getQValue t s a).1
          + ag.alpha * (r + ag.discount * (getValue ag t ns).1))
    ∧ (getQValue (update agC1 tC1 0 0 1 5) 0 0).1 = 7 := by
  constructor
  · intro S A _idS _idA ag t s a ns r
    exact readQ_update_self ag t s a ns r
  · norm_num [update, getValue, getPolicy, getAction, qValuesList, getQValue, setQValue,
      readQ, alookup, aset, listMax, argmaxIdx, agC1, oracleC1, tC1, max_def]

/-- C2: `getValue(s)` returns 0 when the legal-actions oracle returns the
empty sequence for `s`, and otherwise returns the maximum of
`getQValue(s, a)` over the actions `a` in the returned sequence. -/
theorem claim_C2_getValue_max (ag : Agent S A) (t : Store S A) (s : S) :
    (ag.getLegalActions s = [] → (getValue ag t s).1 = 0)
    ∧ (ag.getLegalActions s ≠ [] →
        (∀ a ∈ ag.getLegalActions s, (getQValue t s a).1 ≤ (getValue ag t s).1)
        ∧ ∃ a ∈ ag.getLegalActions s, (getValue ag t s).1 = (getQValue t s a).1) := by
  constructor
  · exact getValue_fst_empty ag t s
  · intro h
    rw [getValue_fst ag t s h]
    constructor
    · intro a ha
      rw [getQValue_fst]
      exact le_listMax (List.mem_map_of_mem _ ha)
    · have hne : (ag.getLegalActions s).map (readQ t s) ≠ [] := by
        simpa using h
      obtain ⟨a, ha, hv⟩ := List.mem_map.mp (listMax_mem hne)
      exact ⟨a, ha, by rw [getQValue_fst, hv]⟩

/-- C2 witness: in the concrete fixture, state 0 has legal actions `[10, 11]`
and the bound from the claim holds at action 10, while state 5 has no legal
actions and `getValue` returns 0 there. -/
theorem claim_C2_witness :
    (getQValue tW 0 10).1 ≤ (getValue agW tW 0).1 ∧ (getValue agW tW 5).1 = 0 :=
  ⟨((claim_C2_getValue_max agW tW 0).2 (by decide)).1 10 (by decide),
    (claim_C2_getValue_max agW tW 5).1 (by decide)⟩

/-- C7: `setQValue(s, a, v)` followed immediately by `getQValue(s, a)` returns
exactly `v`, whether or not the pair existed before. -/
theorem claim_C7_write_then_read (t : Store S A) (s : S) (a : A) (v : ℚ) :
    (getQValue (setQValue t s a v) s a).1 = v := by
  rw [getQValue_fst, readQ_setQValue_self]

/-- C10: after `update(s, a, nextState, reward)`, every pair other than
`(s, a)` reads the same Q-value as before the update. -/
theorem claim_C10_update_frame (ag : Agent S A) (t : Store S A) (s : S) (a : A) (ns : S)
    (r : ℚ) (s1 : S) (a1 : A) (h : (s1, a1) ≠ (s, a)) :
    (getQValue (update ag t s a ns r) s1 a1).1 = (getQValue t s1 a1).1
    ∧ readQ (update ag t s a ns r) s1 a1 = readQ t s1 a1 := by
  have hne : s1 ≠ s ∨ a1 ≠ a := by
    rcases eq_or_ne s1 s with rfl | h1
    · exact Or.inr fun ha => h (by rw [ha])
    · exact Or.inl h1
  refine ⟨?_, readQ_update_ne ag t ns r hne⟩
  rw [getQValue_fst, getQValue_fst, readQ_update_ne ag t ns r hne]

/-- C10 witness: in the worked example, the update at `(0, 0)` leaves the
Q-value read at `(1, 20)` unchanged. -/
theorem claim_C10_witness :
    (getQValue (update agC1 tC1 0 0 1 5) 1 20).1 = (getQValue tC1 1 20).1 :=
  (claim_C10_update_frame agC1 tC1 0 0 1 5 1 20 (by decide)).1

/-- C3: for a state with a non-empty legal-actions sequence, `getPolicy`
returns the first action (in the order returned by the oracle) whose Q-value attains the
maximum Q-value over the sequence, and a repeated call on the store left by
the first call returns the same action. -/
theorem claim_C3_policy_first_argmax (ag : Agent S A) (t : Store S A) (s : S)
    (h : ag.getLegalActions s ≠ []) :
    (∃ (i : Nat) (hi : i < (ag.getLegalActions s).length),
      (getPolicy ag t s).1 = some ((ag.getLegalActions s).get ⟨i, hi⟩)
      ∧ readQ t s ((ag.getLegalActions s).get ⟨i, hi⟩)
          = listMax ((ag.getLegalActions s).map (readQ t s))
      ∧ ∀ (j : Nat) (hj : j < (ag.getLegalActions s).length),
          readQ t s ((ag.getLegalActions s).get ⟨j, hj⟩)
            = listMax ((ag.getLegalActions s).map (readQ t s)) → i ≤ j)
    ∧ (getPolicy ag (getPolicy ag t s).2 s).1 = (getPolicy ag t s).1 := by
  have hq : (ag.getLegalActions s).map (readQ t s) ≠ [] := by simpa using h
  have hlen : ((ag.getLegalActions s).map (readQ t s)).length
      = (ag.getLegalActions s).length := List.length_map _ _
  have hi : argmaxIdx ((ag.getLegalActions s).map (readQ t s)) < (ag.getLegalActions s).length :=
    hlen ▸ argmaxIdx_lt_length hq
  have hget : ∀ (j : Nat) (hj : j < (ag.getLegalActions s).length),
      ((ag.getLegalActions s).map (readQ t s)).get ⟨j, by rw [hlen]; exact hj⟩
        = readQ t s ((ag.getLegalActions s).get ⟨j, hj⟩) := by
    intro j hj
    simp [List.get_eq_getElem, List.getElem_map]
  constructor
  · refine ⟨argmaxIdx ((ag.getLegalActions s).map (readQ t s)), hi, ?_, ?_, ?_⟩
    · rw [getPolicy_fst ag t s h, List.getElem?_eq_getElem hi, List.get_eq_getElem]
    · rw [← hget _ hi]
      have h1 := argmaxIdx_getElem? hq
      rw [List.getElem?_eq_getElem (hlen ▸ hi)] at h1
      rw [List.get_eq_getElem]
      exact Option.some_inj.mp h1
    · intro j hj hmax
      apply argmaxIdx_le
      rw [List.getElem?_eq_getElem (hlen ▸ hj)]
      have hj2 : ((ag.getLegalActions s).map (readQ t s)).get ⟨j, hlen ▸ hj⟩
          = listMax ((ag.getLegalActions s).map (readQ t s)) := by
        rw [hget j hj, hmax]
      rw [List.get_eq_getElem] at hj2
      exact congrArg some hj2
  · have hpt : readQ (getPolicy ag t s).2 s = readQ t s :=
      funext (readQ_getPolicy ag t s s)
    rw [getPolicy_fst ag _ s h, getPolicy_fst ag t s h, hpt]

/-- C3 witness: in the concrete fixture, `Q(0, 10) = 0 < Q(0, 11) = 3`, so
`getPolicy` on state 0 returns action 11. -/
theorem claim_C3_witness : (getPolicy agW tW 0).1 = some 11 := by
  obtain ⟨⟨i, hi, heq, hmax, -⟩, -⟩ := claim_C3_policy_first_argmax agW tW 0 (by decide)
  have hi2 : i < 2 := by simpa [agW, oracleW] using hi
  interval_cases i
  · exfalso
    rw [show ((agW.getLegalActions 0).get ⟨0, hi⟩) = 10 from rfl] at hmax
    norm_num [readQ, tW, setQValue, alookup, aset, listMax, agW, oracleW, max_def] at hmax
  · rw [heq]
    rfl

/-- C4 as stated is false at the boundary: with `epsilon = 0`, the draw
`u = 0` lies in `[0, 1)` and satisfies the inclusive comparison of the source
`u <= epsilon`, so `getAction` takes the exploration branch and can return a
non-greedy action. -/
theorem claim_C4_counterexample :
    agC4.epsilon = 0 ∧ agC4.getLegalActions 0 ≠ [] ∧ (0:ℚ) ≤ 0 ∧ (0:ℚ) < 1
    ∧ (getAction agC4 tC4 0 0 0).1 ≠ (getPolicy agC4 tC4 0).1 := by
  refine ⟨rfl, by decide, le_refl 0, by norm_num, ?_⟩
  norm_num [getAction, getPolicy, qValuesList, getQValue, setQValue, readQ, alookup,
    aset, listMax, argmaxIdx, agC4, oracleC4, tC4, max_def]

/-- C4 (amended): with `epsilon = 0`, for every state with at least one legal
action and every outcome `u` of the uniform draw with `0 < u < 1`,
`getAction` equals `getPolicy` (pure exploitation; the excluded draw `u = 0`
has probability zero). -/
theorem claim_C4_amended_exploit (ag : Agent S A) (t : Store S A) (s : S) (u : ℚ) (i : Nat)
    (he : ag.epsilon = 0) (hu : 0 < u) (_hu1 : u < 1) (hne : ag.getLegalActions s ≠ []) :
    (getAction ag t s u i).1 = (getPolicy ag t s).1 := by
  have hlen : ¬ (ag.getLegalActions s).length = 0 := by
    simpa [List.length_eq_zero] using hne
  have hule : ¬ u ≤ ag.epsilon := by
    rw [he]
    exact not_le.mpr hu
  simp [getAction, getPolicy, hlen, hule]

/-- C4 witness: with `epsilon = 0` and the strictly positive draw `u = 1/2`,
`getAction` on the two-action fixture follows `getPolicy`. -/
theorem claim_C4_witness : (getAction agC4 tC4 0 (1/2) 0).1 = (getPolicy agC4 tC4 0).1 :=
  claim_C4_amended_exploit agC4 tC4 0 (1/2) 0 rfl (by norm_num) (by norm_num) (by decide)

/-- C5 as stated is false on the code: the store is a `defaultdict`, so the
very first `getQValue` on an absent pair materializes an entry — the empty
store is no longer empty after one read. -/
theorem claim_C5_counterexample :
    (getQValue ([] : Store ℕ ℕ) 0 0).2 ≠ ([] : Store ℕ ℕ) := by
  norm_num [getQValue, alookup, aset]

/-- C5 (amended): any sequence of read operations (`getQValue`, `getValue`,
`getPolicy`, `getAction`) without an intervening `setQValue`/`update` leaves
every readable Q-value unchanged, although the backing `defaultdict` may
materialize default-0 entries for the pairs that were read. -/
theorem claim_C5_amended_reads_preserve_values (ag : Agent S A) (ops : List (Op S A))
    (t : Store S A) (h : ∀ op ∈ ops, readOnly op = true) (s : S) (a : A) :
    readQ (runOps ag ops t) s a = readQ t s a :=
  readQ_runOps ag ops t fun op hop => writesTo_eq_false_of_readOnly (h op hop) s a

/-- C5 witness: a concrete sequence of four reads leaves the Q-value at
`(0, 11)` unchanged. -/
theorem claim_C5_witness :
    readQ (runOps agW [Op.getQ 0 0, Op.getV 0, Op.getP 0, Op.getA 0 (1/2) 1] tW) 0 11
      = readQ tW 0 11 :=
  claim_C5_amended_reads_preserve_values agW
    [Op.getQ 0 0, Op.getV 0, Op.getP 0, Op.getA 0 (1/2) 1] tW (by decide) 0 11

/-- C6: starting from the initial empty store, after any sequence of
operations none of which is a `setQValue` or `update` on `(s, a)`,
`getQValue(s, a)` returns 0. -/
theorem claim_C6_unwritten_default_zero (ag : Agent S A) (ops : List (Op S A)) (s : S) (a : A)
    (h : ∀ op ∈ ops, writesTo s a op = false) :
    (getQValue (runOps ag ops ([] : Store S A)) s a).1 = 0 := by
  rw [getQValue_fst, readQ_runOps ag ops [] h]
  rfl

/-- C6 witness: after a write to `(1, 1)`, a read of `(0, 0)` and an update
of `(1, 1)`, the never-written pair `(0, 0)` still reads 0. -/
theorem claim_C6_witness :
    (getQValue (runOps agW [Op.setQ 1 1 5, Op.getQ 0 0, Op.upd 1 1 0 2]
      ([] : Store ℕ ℕ)) 0 0).1 = 0 :=
  claim_C6_unwritten_default_zero agW [Op.setQ 1 1 5, Op.getQ 0 0, Op.upd 1 1 0 2] 0 0
    (by decide)

/-- C8: for a state with no legal actions, `getValue` returns 0 and
`getPolicy` and `getAction` return the sentinel `none`; for a state with at
least one legal action they never return the sentinel, so the empty case is
the only special-cased condition. -/
theorem claim_C8_no_actions_sentinel (ag : Agent S A) (t : Store S A) (s : S) (u : ℚ)
    (i : Nat) :
    (ag.getLegalActions s = [] →
      (getValue ag t s).1 = 0 ∧ (getPolicy ag t s).1 = none ∧ (getAction ag t s u i).1 = none)
    ∧ (ag.getLegalActions s ≠ [] →
      (getPolicy ag t s).1 ≠ none ∧ (getAction ag t s u i).1 ≠ none) := by
  constructor
  · intro h
    have hlen : (ag.getLegalActions s).length = 0 := by rw [h]; rfl
    exact ⟨getValue_fst_empty ag t s h, getPolicy_fst_empty ag t s h,
      by simp [getAction, hlen]⟩
  · intro h
    have hlen : ¬ (ag.getLegalActions s).length = 0 := by
      simpa [List.length_eq_zero] using h
    have hq : (ag.getLegalActions s).map (readQ t s) ≠ [] := by simpa using h
    have hi : argmaxIdx ((ag.getLegalActions s).map (readQ t s))
        < (ag.getLegalActions s).length :=
      (List.length_map _ _) ▸ argmaxIdx_lt_length hq
    have hpol : (getPolicy ag t s).1 ≠ none := by
      rw [getPolicy_fst ag t s h, List.getElem?_eq_getElem hi]
      simp
    refine ⟨hpol, ?_⟩
    by_cases hu : u ≤ ag.epsilon
    · have hmod : i % (ag.getLegalActions s).length < (ag.getLegalActions s).length :=
        Nat.mod_lt _ (Nat.pos_of_ne_zero hlen)
      simp [getAction, hlen, hu, List.getElem?_eq_getElem hmod]
    · simpa [getAction, hlen, hu] using hpol

/-- C8 witness: state 5 of the fixture has no legal actions, and the three
operations return 0, `none` and `none` there; state 0 has legal actions and
`getPolicy` does not return the sentinel. -/
theorem claim_C8_witness :
    ((getValue agW tW 5).1 = 0 ∧ (getPolicy agW tW 5).1 = none
      ∧ (getAction agW tW 5 (1/2) 0).1 = none)
    ∧ (getPolicy agW tW 0).1 ≠ none :=
  ⟨(claim_C8_no_actions_sentinel agW tW 5 (1/2) 0).1 (by decide),
    ((claim_C8_no_actions_sentinel agW tW 0 (1/2) 0).2 (by decide)).1⟩

/-- C9: `update` and `getAction` use the hyperparameter values held in the
mutable fields of the agent at call time: after reassigning `alpha`/`discount`,
the stored value follows the update formula with the reassigned values, and
after reassigning `epsilon`, the branch test of `getAction` compares the
draw against the reassigned value. -/
theorem claim_C9_current_hyperparameters (ag : Agent S A) (a1 e1 g1 : ℚ) (t : Store S A)
    (s : S) (a : A) (ns : S) (r u : ℚ) (i : Nat) :
    (readQ (update (setAlpha (setDiscount ag g1) a1) t s a ns r) s a
       = (1 - a1) * (getQValue t s a).1 + a1 * (r + g1 * (getValue ag t ns).1))
    ∧ (u ≤ e1 → (ag.getLegalActions s).length ≠ 0 →
        (getAction (setEpsilon ag e1) t s u i).1
          = (ag.getLegalActions s)[i % (ag.getLegalActions s).length]?)
    ∧ (¬ u ≤ e1 → (getAction (setEpsilon ag e1) t s u i).1 = (getPolicy ag t s).1) := by
  refine ⟨?_, ?_, ?_⟩
  · rw [readQ_update_self]
    rfl
  · intro hu hlen
    simp [getAction, setEpsilon, hu, hlen]
  · intro hu
    have hpol : getPolicy (setEpsilon ag e1) t s = getPolicy ag t s := rfl
    by_cases hlen : (ag.getLegalActions s).length = 0
    · have hempty : ag.getLegalActions s = [] := List.length_eq_zero.mp hlen
      simp [getAction, setEpsilon, hlen, getPolicy_fst_empty ag t s hempty]
    · have hbranch : (getAction (setEpsilon ag e1) t s u i).1
          = (getPolicy (setEpsilon ag e1) t s).1 := by
        simp [getAction, setEpsilon, hlen, hu]
      rw [hbranch, hpol]

/-- C9 witness: with `epsilon` reassigned to `1/4` and the draw `u = 1/8`
at or below it, `getAction` takes the exploration branch and returns the
randomly chosen action 11. -/
theorem claim_C9_witness : (getAction (setEpsilon agW (1/4)) tW 0 (1/8) 1).1 = some 11 := by
  have h := (claim_C9_current_hyperparameters agW (1/2) (1/4) (9/10) tW 0 0 1 5 (1/8) 1).2.1
    (by norm_num) (by decide)
  rw [h]
  rfl

end QLearning
